import Mathlib

/-!
Verification development for the "radio-truyen-cua-me" audio streaming server.

The development shallowly embeds the parts of the code base that the checked
properties are about:

* `modules/Tts.py`     — percent-string validation, text chunking, the bounded
                         producer/consumer queue, and the `stream` entry guard;
* `modules/Cache_manager.py` — key→path mapping and the age/size cleanup passes;
* `app.py`             — the `/api/read` handler (`read_stream`) with its
                         file-based lock, and the `generate_and_cache`
                         tee-to-temp-then-rename writer.

Python strings are modelled as `List Char` (named `Str`), byte strings as
`List Nat`, and the filesystem state visible to one request as small record
types.  Machine-level concerns (actual clock values, inode identity) are
modelled as explicit parameters.
-/

set_option maxRecDepth 20000

namespace RadioTruyen

/-- Python strings, modelled as lists of characters so that every operation
reduces in the kernel. -/
abbrev Str := List Char

/-- Byte strings (audio data), modelled as lists of byte values. -/
abbrev Bytes := List Nat

/-! ### Python string primitives used by the sources -/

/-- The codepoint ranges of the characters Python's `str.isspace()` — and
hence its no-argument `str.strip()` — treats as whitespace: tab through
carriage return, the separators `\x1c`–`\x1f` and space, next line `\x85`,
no-break space `\xa0`, Ogham space mark, the U+2000 spacing block, line and
paragraph separators, narrow no-break space, medium mathematical space and
ideographic space.  (Unicode 14.0, as shipped with CPython 3.11.) -/
def pySpaceRanges : List (Nat × Nat) :=
  [(9, 13), (28, 32), (133, 133), (160, 160), (5760, 5760), (8192, 8202),
   (8232, 8233), (8239, 8239), (8287, 8287), (12288, 12288)]

/-- Python whitespace, as stripped by `str.strip()`. -/
def isPySpace (c : Char) : Bool :=
  pySpaceRanges.any fun r => r.1 ≤ c.toNat && c.toNat ≤ r.2

/-- Python `str.strip()`: remove leading and trailing whitespace. -/
def pyStrip (s : Str) : Str :=
  ((s.dropWhile isPySpace).reverse.dropWhile isPySpace).reverse

/-- Index of the last occurrence of `c` in `s` (auxiliary recursion).
Prefers an occurrence in the tail since that one has the larger index. -/
def rfindCharAux (c : Char) : Str → Option Nat
  | [] => none
  | x :: xs =>
    match rfindCharAux c xs with
    | some i => some (i + 1)
    | none => if x = c then some 0 else none

/-- Python `str.rfind(c)` restricted to a single character: the index of the
last occurrence of `c` in `s`, or `none` (Python returns `-1`). -/
def rfindChar (s : Str) (c : Char) : Option Nat :=
  rfindCharAux c s

/-- `pathlib.PurePath.suffix`: the file extension from the last dot, but only
when that dot is neither the leading character nor the trailing character of
the name; otherwise the empty string. -/
def pathSuffix (name : Str) : Str :=
  match rfindChar name '.' with
  | none => []
  | some i => if 0 < i ∧ i < name.length - 1 then name.drop i else []

/-- `pathlib.PurePath.stem`-style prefix used by `with_suffix`: the name with
its `pathSuffix` removed. -/
def pathStem (name : Str) : Str :=
  name.take (name.length - (pathSuffix name).length)

/-! ### `modules/Tts.py` — percent-string validation

Source: `TTSEngine._validate_percent_string` checks
`re.match(r"^[+-]\d{1,3}%$", value)` and raises `ValueError` on failure,
returning `value` unchanged on success. -/

/-- Python exception surrogate for the validation path. -/
inductive PyError
  | valueError
deriving DecidableEq, Repr

/-- The codepoint ranges of Unicode general category Nd (decimal digits),
Unicode 14.0 as shipped with CPython 3.11.  On `str` patterns without the
`re.ASCII` flag, Python's `\d` matches exactly these characters — ASCII
`0`–`9`, but also e.g. Arabic-Indic `'٥'` and fullwidth `'５'`. -/
def ndRanges : List (Nat × Nat) :=
  [(48, 57), (1632, 1641), (1776, 1785), (1984, 1993), (2406, 2415),
   (2534, 2543), (2662, 2671), (2790, 2799), (2918, 2927), (3046, 3055),
   (3174, 3183), (3302, 3311), (3430, 3439), (3558, 3567), (3664, 3673),
   (3792, 3801), (3872, 3881), (4160, 4169), (4240, 4249), (6112, 6121),
   (6160, 6169), (6470, 6479), (6608, 6617), (6784, 6793), (6800, 6809),
   (6992, 7001), (7088, 7097), (7232, 7241), (7248, 7257), (42528, 42537),
   (43216, 43225), (43264, 43273), (43472, 43481), (43504, 43513),
   (43600, 43609), (44016, 44025), (65296, 65305), (66720, 66729),
   (68912, 68921), (69734, 69743), (69872, 69881), (69942, 69951),
   (70096, 70105), (70384, 70393), (70736, 70745), (70864, 70873),
   (71248, 71257), (71360, 71369), (71472, 71481), (71904, 71913),
   (72016, 72025), (72784, 72793), (73040, 73049), (73120, 73129),
   (92768, 92777), (92864, 92873), (93008, 93017), (120782, 120831),
   (123200, 123209), (123632, 123641), (125264, 125273), (130032, 130041)]

/-- A character matched by the pattern's `\d`: any Unicode decimal digit. -/
def isPyDigit (c : Char) : Bool :=
  ndRanges.any fun r => r.1 ≤ c.toNat && c.toNat ≤ r.2

/-- The set of strings accepted by `re.match(r"^[+-]\d{1,3}%$", value)`.
A sign, one to three decimal digits (`\d`, any Unicode decimal digit), a
percent sign; Python's `$` anchor matches at the very end of the string or
just before a single trailing newline, so a trailing `'\n'` after the `'%'`
is also accepted. -/
def reMatchPercent (s : Str) : Bool :=
  match s with
  | [] => false
  | c :: rest =>
    (c = '+' || c = '-') &&
    (let ds := rest.takeWhile isPyDigit
     let tl := rest.drop ds.length
     decide (1 ≤ ds.length) && decide (ds.length ≤ 3) &&
     match tl with
     | x :: r => x = '%' && (r = [] || r = ['\n'])
     | [] => false)

/-- `TTSEngine._validate_percent_string`: raise `ValueError` when the regular
expression does not match, return the string unchanged when it does. -/
def validate_percent_string (value : Str) : Except PyError Str :=
  if reMatchPercent value then .ok value else .error .valueError

/-- The shape named by the specification: a `'+'` or `'-'` sign, one to three
digits, then `'%'`, and nothing else — with "digit" read as the pattern's
`\d` reads it, i.e. any Unicode decimal digit.  (Written from the claim's
words, to be compared with the behaviour of the source's
regular-expression match.) -/
def claimSignedPercent (s : Str) : Bool :=
  match s with
  | [] => false
  | c :: rest =>
    (c = '+' || c = '-') &&
    (let ds := rest.takeWhile isPyDigit
     decide (1 ≤ ds.length) && decide (ds.length ≤ 3) &&
     rest.drop ds.length = ['%'])

/-! ### `modules/Tts.py` — text chunking -/

/-- `TEXT_CHUNK_SIZE`: max characters sent to the TTS API in one request. -/
def TEXT_CHUNK_SIZE : Nat := 2500

/-- Python `p.rfind(' ', start, stop)`: the largest index `i` with
`start ≤ i < min stop (len p)` and `p[i] = ' '`, or `none`. -/
def pyRfindSpace (p : Str) (start stop : Nat) : Option Nat :=
  (rfindChar ((p.drop start).take (stop - start)) ' ').map (fun i => start + i)

/-- The cut position chosen by the force-split loop of `_chunk_text`:
`end = p.rfind(' ', start, start + L)`; `if end == -1 or end <= start:
end = start + L`. -/
def forcedEnd (L : Nat) (p : Str) (start : Nat) : Nat :=
  match pyRfindSpace p start (start + L) with
  | some i => if i ≤ start then start + L else i
  | none => start + L

/-- The `while start < len(p)` force-split loop of `_chunk_text`, which cuts
an oversized paragraph at word boundaries.  Each iteration advances `start`
past the cut (`start = end + 1`), so at most `len p` iterations can run; the
`fuel` argument carries that bound to make the recursion structural. -/
def forceSplitFuel (L : Nat) (p : Str) : Nat → Nat → List Str
  | 0, _ => []
  | fuel + 1, start =>
    if start < p.length then
      let e := forcedEnd L p start
      ((p.drop start).take (e - start)) :: forceSplitFuel L p fuel (e + 1)
    else []

/-- Force-splitting an oversized paragraph, as in `_chunk_text`. -/
def forceSplit (L : Nat) (p : Str) : List Str :=
  forceSplitFuel L p p.length 0

/-- The paragraph-accumulation loop of `TTSEngine._chunk_text`.  `cc` is the
Python `current_chunk`; the three branches are, in source order: the
oversized-paragraph branch (flush `current_chunk`, force-split, continue with
an empty chunk), the accumulate branch, and the flush branch.  After the loop
the remaining `current_chunk` is yielded when it has non-whitespace content. -/
def chunkGo (L : Nat) : List Str → Str → List Str
  | [], cc => if pyStrip cc = [] then [] else [cc]
  | p :: ps, cc =>
    if L ≤ p.length then
      (if cc = [] then [] else [cc]) ++ forceSplit L p ++ chunkGo L ps []
    else if cc.length + p.length + 1 < L then
      chunkGo L ps (cc ++ p ++ ['\n'])
    else
      cc :: chunkGo L ps (p ++ ['\n'])

/-- `TTSEngine._chunk_text`, parameterised by the chunk limit `L`
(`TEXT_CHUNK_SIZE` in the source): split on `'\n'` paragraph boundaries and
accumulate or force-split. -/
def chunk_text (L : Nat) (text : Str) : List Str :=
  if text = [] then [] else chunkGo L (text.splitOn '\n') []

/-- Concatenation of the yielded chunks, in order. -/
def chunkConcat (l : List Str) : Str := l.foldr (· ++ ·) []

/-- The non-whitespace character subsequence of a string.  The chunking claim
("the original text up to whitespace normalization differences only") states
that this subsequence is preserved by chunking. -/
def nonWsChars (s : Str) : Str := s.filter (fun c => !(isPySpace c))

/-! ### `modules/Tts.py` — the bounded audio queue

`stream` creates `audio_queue = queue.Queue(maxsize=QUEUE_MAX_SIZE)`.  The
producer thread enqueues audio frames with the blocking `audio_queue.put`
(inside `stream_and_queue_chunk`), and enqueues the terminal items — a
`TTSEngineError` on failure and the `None` end-of-stream sentinel — with
`_safe_put`. -/

/-- `QUEUE_MAX_SIZE`: capacity of the bounded producer→consumer queue. -/
def QUEUE_MAX_SIZE : Nat := 100

/-- Items travelling through `audio_queue`: an audio frame (bytes), a
`TTSEngineError` carried as a value, or the `None` end-of-stream sentinel. -/
inductive QItem
  | frame (data : Bytes)
  | err
  | eos
deriving DecidableEq, Repr

/-- The FIFO queue state: queued items, oldest first, and the capacity. -/
structure BQueue where
  items : List QItem
  cap : Nat
deriving DecidableEq, Repr

/-- `queue.Queue.put_nowait`: enqueue at the back, or fail (`queue.Full`,
modelled as `none`) when the queue already holds `cap` items. -/
def put_nowait (q : BQueue) (x : QItem) : Option BQueue :=
  if q.items.length < q.cap then some ⟨q.items ++ [x], q.cap⟩ else none

/-- `queue.Queue.get_nowait`: dequeue the oldest item, or fail
(`queue.Empty`, modelled as `none`) when the queue is empty. -/
def get_nowait (q : BQueue) : Option (QItem × BQueue) :=
  match q.items with
  | [] => none
  | x :: xs => some (x, ⟨xs, q.cap⟩)

/-- The blocking `queue.Queue.put` used for audio frames in
`stream_and_queue_chunk` (`audio_queue.put(chunk["data"])`).  When the queue
is full the calling producer blocks until a consumer removes an item; `none`
models that blocked state — no item is enqueued and nothing is discarded. -/
def put_blocking (q : BQueue) (x : QItem) : Option BQueue :=
  if q.items.length < q.cap then some ⟨q.items ++ [x], q.cap⟩ else none

/-- `_safe_put`: try `put_nowait`; on `queue.Full`, `get_nowait` one old item
(`except queue.Empty: pass`) and retry `put_nowait`.  The retry sits outside
any `except queue.Full`, so a second `Full` would propagate — modelled as
`none` (provably unreachable when the capacity is positive). -/
def safe_put (q : BQueue) (x : QItem) : Option BQueue :=
  match put_nowait q x with
  | some q' => some q'
  | none =>
    match get_nowait q with
    | some (_, q1) => put_nowait q1 x
    | none => some q

/-- The behaviour the claim ascribes to every producer enqueue of an audio
frame: "drops the single oldest queued item to make room for the new item and
continues".  (Written from the claim's words, to be compared with the
source's `audio_queue.put`.) -/
def claimDropOldestPut (q : BQueue) (x : QItem) : BQueue :=
  if q.items.length < q.cap then ⟨q.items ++ [x], q.cap⟩
  else ⟨q.items.tail ++ [x], q.cap⟩

/-! ### `modules/Tts.py` — `TTSEngine.stream` entry guard -/

/-- The outcome of the setup phase of `TTSEngine.stream`, before any frame is
produced.

* `emptyReturn` — the `if not text or not text.strip(): return` guard fired:
  the generator yields nothing and returns; no rate/volume validation runs,
  `audio_queue` is never created, no producer thread is started and the
  synthesis service is never invoked.
* `invalidParam` — a non-empty per-call `rate`/`volume` override failed
  `_validate_percent_string` (a `ValueError` escapes).
* `started` — the producer thread is started with the validated parameters
  and the queue of capacity `QUEUE_MAX_SIZE` is created. -/
inductive StreamSetup
  | emptyReturn
  | invalidParam
  | started (rate volume : Str)
deriving DecidableEq, Repr

/-- `final_rate = self._validate_percent_string(rate, "rate") if rate else
self.rate`: a `None` or empty override falls back to the engine value without
validation; a non-empty override is validated. -/
def selectOverride (engineVal : Str) (override : Option Str) : Except PyError Str :=
  match override with
  | none => .ok engineVal
  | some r => if r = [] then .ok engineVal else validate_percent_string r

/-- The setup phase of `TTSEngine.stream text rate volume` on an engine whose
constructor-validated values are `selfRate` and `selfVolume`. -/
def streamSetup (selfRate selfVolume : Str) (text : Str)
    (rate volume : Option Str) : StreamSetup :=
  if text = [] ∨ pyStrip text = [] then .emptyReturn
  else
    match selectOverride selfRate rate with
    | .error _ => .invalidParam
    | .ok r =>
      match selectOverride selfVolume volume with
      | .error _ => .invalidParam
      | .ok v => .started r v

/-! ### `modules/Cache_manager.py` — key→path mapping -/

/-- `CACHE_DIR_NAME`: the cache directory (its absolute prefix is irrelevant
to the naming claims and is dropped from the model). -/
def CACHE_DIR : Str := "audio_cache".data

/-- A `pathlib` path inside the cache directory: the directory part and the
file name.  `with_suffix` only ever rewrites the name. -/
structure PPath where
  dir : Str
  name : Str
deriving DecidableEq, Repr

/-- `get_path_from_key`: `CACHE_DIR_PATH / f"{key}.mp3"`. -/
def get_path_from_key (key : Str) : PPath :=
  ⟨CACHE_DIR, key ++ ".mp3".data⟩

/-- `pathlib.PurePath.with_suffix`: replace the current `pathSuffix` of the
name (empty when there is none) with the given suffix. -/
def withSuffix (p : PPath) (suffix : Str) : PPath :=
  ⟨p.dir, pathStem p.name ++ suffix⟩

/-- `app.py` line 118: `lock_path = final_path.with_suffix('.lock')`. -/
def lock_path_of (key : Str) : PPath :=
  withSuffix (get_path_from_key key) ".lock".data

/-- `app.py` line 141: `temp_path = final_path.with_suffix('.mp3.tmp')`. -/
def temp_path_of (key : Str) : PPath :=
  withSuffix (get_path_from_key key) ".mp3.tmp".data

/-! ### `app.py` — `generate_and_cache`

The generator opens the temp artifact for writing, and for every chunk
received from `tts_engine.stream` writes it to the temp file and yields it to
the client.  If the loop completes it renames temp → final and sets
`success = True`; the `finally` block deletes the temp file exactly when
`success` is still `False` and the file exists (any exception from the TTS
stream, or a `GeneratorExit` when the client disconnects mid-stream). -/

/-- The cache-relevant filesystem state for one key: the final cache entry,
the lock artifact, and the temp artifact (`none` = absent, `some c` = a file
with content `c`). -/
structure AppFS where
  final : Option Bytes
  lock : Bool
  temp : Option Bytes
deriving DecidableEq, Repr

/-- Concatenation of the frames written so far. -/
def bytesConcat (l : List Bytes) : Bytes := l.foldr (· ++ ·) []

/-- An interruption of the frame sequence: `none` means the TTS stream
completed without error; `some k` means the sequence raised or was cancelled
(client disconnect) after `k` frames had been written and yielded. -/
abbrev Interrupt := Option Nat

/-- Number of frames actually written before the loop ends. -/
def framesWritten (frames : List Bytes) (intr : Interrupt) : Nat :=
  match intr with
  | none => frames.length
  | some k => min k frames.length

/-- The filesystem state after `generate_and_cache` finishes (its `finally`
included): on completion the temp file is renamed onto the final path; on
interruption the temp file is unlinked and the final path is untouched. -/
def gen_and_cache_result (fs : AppFS) (frames : List Bytes) (intr : Interrupt) : AppFS :=
  match intr with
  | none => ⟨some (bytesConcat frames), fs.lock, none⟩
  | some _ => ⟨fs.final, fs.lock, none⟩

/-- Every filesystem state an observer can see while `generate_and_cache`
runs: the state right after the temp file is opened (`'wb'` truncates it to
empty), the state after each chunk write, and the final state after the
rename (on success) or the temp unlink (on interruption). -/
def gen_and_cache_trace (fs : AppFS) (frames : List Bytes) (intr : Interrupt) : List AppFS :=
  let k := framesWritten frames intr
  ⟨fs.final, fs.lock, some []⟩ ::
    ((List.range k).map fun i =>
      ⟨fs.final, fs.lock, some (bytesConcat (frames.take (i + 1)))⟩) ++
    [gen_and_cache_result fs frames intr]

/-! ### `app.py` — `read_stream` (the `/api/read` handler)

The handler (with the URL present and the TTS engine initialised):

1. cache hit → touch the file's mtime and stream it (`Response`, 200);
2. else `if lock_path.exists(): return 429` — the busy rejection;
3. else `lock_path.touch()` creates the lock, the metadata is fetched;
   missing content → 422, otherwise the content is truncated to
   `MAX_CONTENT_LENGTH` and `Response(stream_with_context(
   generate_and_cache()))` is returned.

Python semantics decisive for the lock lifetime: `return` inside the `try`
runs the `finally` block — which unlinks the lock — *before* `read_stream`
returns, and the body of the `generate_and_cache` generator has not executed
at that point (Flask iterates the returned generator only after the view
function has returned).  The model therefore clears `lock` in the state paired
with the `response` result, while the generation itself is still pending. -/

/-- `MAX_CONTENT_LENGTH` (default). -/
def MAX_CONTENT_LENGTH : Nat := 200000

/-- The notice appended when a chapter is truncated. -/
def truncNote : Str := "\n\nBot nói: Chương này quá dài, bot chỉ đọc một phần thôi nhé.".data

/-- Content truncation in `read_stream`. -/
def truncateContent (content : Str) : Str :=
  if MAX_CONTENT_LENGTH < content.length then
    content.take MAX_CONTENT_LENGTH ++ truncNote
  else content

/-- The result `read_stream` hands back to the HTTP layer.  `response c`
carries the text the pending `generate_and_cache` generator will synthesise;
the generator has not run yet when `read_stream` returns. -/
inductive ReadResult
  | hit
  | locked
  | contentFailed
  | response (content : Str)
deriving DecidableEq, Repr

/-- `read_stream` on the state `fs` for one key; `metadata` is the content
returned by `get_metadata_with_cache` (`none` covers both a failed fetch and
metadata without content, which the handler turns into a 422). -/
def read_stream (fs : AppFS) (metadata : Option Str) : ReadResult × AppFS :=
  if fs.final.isSome then (.hit, fs)
  else if fs.lock then (.locked, fs)
  else
    let fs1 : AppFS := ⟨fs.final, true, fs.temp⟩
    match metadata with
    | none => (.contentFailed, ⟨fs1.final, false, fs1.temp⟩)
    | some content =>
      (.response (truncateContent content), ⟨fs1.final, false, fs1.temp⟩)

/-! ### `modules/Cache_manager.py` — the age pass -/

/-- `CACHE_MAX_AGE_DAYS` default; the pass itself is parameterised over the
configured value. -/
def CACHE_MAX_AGE_DAYS : Int := 7

/-- Seconds per day, as in the source. -/
def SECONDS_IN_A_DAY : Int := 86400

/-- `STALE_TEMP_FILE_SECONDS = 3600  # 1 hour`. -/
def STALE_TEMP_FILE_SECONDS : Int := 3600

/-- Result of `path.stat()` for a directory entry: the file can have vanished
between `iterdir` and `stat` (`FileNotFoundError`). -/
inductive StatRes
  | ok
  | missing
deriving DecidableEq, Repr

/-- Result of `path.unlink()`: success, `FileNotFoundError` (deleted
concurrently), or another `OSError`. -/
inductive UnlinkRes
  | ok
  | missing
  | oserr
deriving DecidableEq, Repr

/-- A directory entry as the age pass sees it: its name (for `path.suffix`),
its mtime in seconds, and the outcomes the filesystem would give to `stat`
and `unlink` on it. -/
structure AEntry where
  name : Str
  mtime : Int
  stat : StatRes
  unlink : UnlinkRes
deriving DecidableEq, Repr

/-- What the age pass does to one entry. -/
inductive AgeOutcome
  | deleted
  | kept
  | alreadyGone
  | failed
deriving DecidableEq, Repr

/-- `is_stale_temp_file`: the suffix is `.tmp` or `.lock` and `mtime <
now - STALE_TEMP_FILE_SECONDS`. -/
def isStaleTempFile (now : Int) (e : AEntry) : Bool :=
  (pathSuffix e.name = ".tmp".data || pathSuffix e.name = ".lock".data) &&
    decide (e.mtime < now - STALE_TEMP_FILE_SECONDS)

/-- `is_old_cache_file`: `mtime < now - CACHE_MAX_AGE_DAYS * SECONDS_IN_A_DAY`. -/
def isOldCacheFile (now maxAgeDays : Int) (e : AEntry) : Bool :=
  decide (e.mtime < now - maxAgeDays * SECONDS_IN_A_DAY)

/-- The per-entry body of `_cleanup_by_age`: a `stat` that raises
`FileNotFoundError` is skipped with `continue` (the file is already gone —
success, not an error); otherwise the entry is unlinked exactly when it is an
old cache file or a stale temp/lock artifact, an unlink `FileNotFoundError`
again counting as already-gone and any other `OSError` being logged. -/
def ageOutcome (now maxAgeDays : Int) (e : AEntry) : AgeOutcome :=
  match e.stat with
  | .missing => .alreadyGone
  | .ok =>
    if isOldCacheFile now maxAgeDays e || isStaleTempFile now e then
      match e.unlink with
      | .ok => .deleted
      | .missing => .alreadyGone
      | .oserr => .failed
    else .kept

/-- `_cleanup_by_age`: the number of entries actually deleted. -/
def cleanup_by_age (now maxAgeDays : Int) (entries : List AEntry) : Nat :=
  entries.countP (fun e => ageOutcome now maxAgeDays e = .deleted)

/-! ### `modules/Cache_manager.py` — the size pass

`_cleanup_by_size` stats every file in the cache directory, sums the sizes,
returns immediately when the total is below `CACHE_MAX_SIZE_BYTES`, and
otherwise deletes files in ascending-mtime order until the running total
drops below `CACHE_CLEANUP_TARGET_BYTES`, decrementing the running total also
when a file turns out to have been deleted concurrently
(`except FileNotFoundError`), and skipping (without decrement) files whose
deletion fails with another `OSError`.

With the default configuration the byte thresholds are
`400 * 1024 * 1024 = 419430400` and `419430400 * (70 / 100)`; the latter is a
Python float whose value is exactly `293601280.0`, so both thresholds are
modelled as the natural numbers the comparisons are performed against. -/

/-- A file as scanned by the size pass: an identity tag, `st_size`,
`st_mtime`, and the outcome `unlink` would have on it. -/
structure SFile where
  sid : Nat
  size : Nat
  mtime : Int
  unlink : UnlinkRes
deriving DecidableEq, Repr

/-- Total size computed by the scan. -/
def totalSize (files : List SFile) : Nat := (files.map (·.size)).sum

/-- Stable insertion of a file into a list already sorted by ascending mtime:
ties keep the original relative order, matching Python's stable `list.sort`. -/
def insertByMtime (f : SFile) : List SFile → List SFile
  | [] => [f]
  | g :: gs => if f.mtime ≤ g.mtime then f :: g :: gs else g :: insertByMtime f gs

/-- `files_to_scan.sort(key=lambda x: x['mtime'])`: stable ascending sort. -/
def sortByMtime : List SFile → List SFile
  | [] => []
  | f :: fs => insertByMtime f (sortByMtime fs)

/-- The deletion loop of `_cleanup_by_size` over the sorted list: before each
file the loop breaks when `total_size < CACHE_CLEANUP_TARGET_BYTES`
(a strict comparison in the source); a successful unlink records the file and
decrements the total, a `FileNotFoundError` only decrements the total, any
other `OSError` is logged and skipped.  Returns the deleted files (the source
returns their count) and the final running total. -/
def sizeLoop (target : Nat) : List SFile → Nat → List SFile × Nat
  | [], total => ([], total)
  | f :: fs, total =>
    if total < target then ([], total)
    else
      match f.unlink with
      | .ok =>
        let r := sizeLoop target fs (total - f.size)
        (f :: r.1, r.2)
      | .missing => sizeLoop target fs (total - f.size)
      | .oserr => sizeLoop target fs total

/-- `_cleanup_by_size`, parameterised by the two byte thresholds. -/
def cleanup_by_size (maxBytes targetBytes : Nat) (files : List SFile) :
    List SFile × Nat :=
  let total := totalSize files
  if total < maxBytes then ([], total)
  else sizeLoop targetBytes (sortByMtime files) total

/-- The deletion loop as the claim words it: "stops as soon as the running
total is ≤ TARGET_SIZE" — a non-strict stopping comparison.  (Written from
the claim's words, to be compared with the source's loop.) -/
def sizeLoopClaim (target : Nat) : List SFile → Nat → List SFile × Nat
  | [], total => ([], total)
  | f :: fs, total =>
    if total ≤ target then ([], total)
    else
      match f.unlink with
      | .ok =>
        let r := sizeLoopClaim target fs (total - f.size)
        (f :: r.1, r.2)
      | .missing => sizeLoopClaim target fs (total - f.size)
      | .oserr => sizeLoopClaim target fs total

/-- The size pass as the claim words it. -/
def cleanup_by_size_claim (maxBytes targetBytes : Nat) (files : List SFile) :
    List SFile × Nat :=
  let total := totalSize files
  if total < maxBytes then ([], total)
  else sizeLoopClaim targetBytes (sortByMtime files) total

/-- The running-total decrement applied while scanning a prefix of the sorted
list: every file whose unlink succeeded or hit `FileNotFoundError`
contributes its size; an `OSError`-skipped file contributes nothing. -/
def decSum (l : List SFile) : Nat :=
  ((l.filter fun f =>
      match f.unlink with
      | .oserr => false
      | _ => true).map (·.size)).sum

/-! ## Helper lemmas -/

/-- `str.strip()` is empty exactly when every character is whitespace. -/
theorem pyStrip_eq_nil_iff (l : Str) :
    pyStrip l = [] ↔ ∀ x ∈ l, isPySpace x = true := by
  unfold pyStrip
  rw [List.reverse_eq_nil_iff, List.dropWhile_eq_nil_iff]
  constructor
  · intro h x hx
    have hdecomp := List.takeWhile_append_dropWhile (p := isPySpace) (l := l)
    rw [← hdecomp] at hx
    rcases List.mem_append.mp hx with hx | hx
    · exact List.mem_takeWhile_imp hx
    · exact h x (List.mem_reverse.mpr hx)
  · intro h x hx
    exact h x ((List.dropWhile_sublist isPySpace).mem (List.mem_reverse.mp hx))

/-- An index returned by `rfindCharAux` is in range. -/
theorem rfindCharAux_lt (c : Char) (s : Str) (i : Nat)
    (h : rfindCharAux c s = some i) : i < s.length := by
  induction s generalizing i with
  | nil => simp [rfindCharAux] at h
  | cons x xs ih =>
    simp only [rfindCharAux] at h
    cases hxs : rfindCharAux c xs with
    | some j =>
      rw [hxs] at h
      injection h with h
      have := ih j hxs
      simp only [List.length_cons]
      omega
    | none =>
      rw [hxs] at h
      by_cases hxc : x = c
      · rw [if_pos hxc] at h
        injection h with h
        simp only [List.length_cons]
        omega
      · rw [if_neg hxc] at h
        cases h

/-- When no element of `s` equals `c`, `rfind` reports no occurrence. -/
theorem rfindCharAux_eq_none (c : Char) (s : Str) (h : ∀ x ∈ s, x ≠ c) :
    rfindCharAux c s = none := by
  induction s with
  | nil => rfl
  | cons x xs ih =>
    simp only [rfindCharAux]
    rw [ih fun y hy => h y (List.mem_cons_of_mem x hy)]
    simp [h x (List.mem_cons_self x xs)]

/-- `rfind` on `l ++ suf` locates the last occurrence inside `suf` when there
is one, at the shifted index. -/
theorem rfindCharAux_append (c : Char) (l suf : Str) (j : Nat)
    (hsuf : rfindCharAux c suf = some j) :
    rfindCharAux c (l ++ suf) = some (l.length + j) := by
  induction l with
  | nil => simpa using hsuf
  | cons x xs ih =>
    show (match rfindCharAux c (xs ++ suf) with
      | some i => some (i + 1)
      | none => if x = c then some 0 else none) = some ((x :: xs).length + j)
    rw [ih]
    simp only [List.length_cons, Option.some.injEq]
    omega

/-- Splitting a list that contains no separator gives the list back. -/
theorem splitOn_eq_single (c : Char) (l : Str) (h : ∀ x ∈ l, x ≠ c) :
    l.splitOn c = [l] := by
  show l.splitOnP (· == c) = [l]
  exact List.splitOnP_eq_single (· == c) l fun x hx => by
    simpa using h x hx

/-- `dropWhile p` keeps its argument whole as soon as `takeWhile` resolves:
`l.drop (l.takeWhile p).length = l.dropWhile p`. -/
theorem drop_takeWhile_length (p : Char → Bool) (l : Str) :
    l.drop (l.takeWhile p).length = l.dropWhile p := by
  induction l with
  | nil => rfl
  | cons x xs ih =>
    by_cases h : p x <;>
      simp [List.takeWhile_cons, List.dropWhile_cons, h, ih]

/-- `takeWhile` over a block of satisfying elements followed by a failing
element stops exactly at the block. -/
theorem takeWhile_block (p : Char → Bool) (ds : Str)
    (hds : ∀ x ∈ ds, p x = true) (x : Char) (hx : p x = false) (r : Str) :
    (ds ++ x :: r).takeWhile p = ds := by
  induction ds with
  | nil => simp [List.takeWhile_cons, hx]
  | cons d ds ih =>
    simp only [List.cons_append, List.takeWhile_cons,
      hds d (List.mem_cons_self d ds), if_true]
    rw [ih fun y hy => hds y (List.mem_cons_of_mem d hy)]

/-! ## Claim C1 — single-flight lock lifetime -/

/-- Claim C1: "while a generation for K is in flight (the lock artifact was
created and the generated byte stream has not yet completed or failed), a
concurrent request for K observes Locked and is rejected; no second producer
for K is started, and the lock artifact for K is not deleted until the
in-flight generation completes, errors, or is cancelled."

The code violates this.  Starting from an empty cache, the first request
acquires the lock and returns a streaming `Response` whose generator — the
producer — has not run yet, so the generation is still in flight; but the
`finally` block of `read_stream` has already unlinked the lock at that
point (Python runs `finally` when `return` executes, before Flask iterates
the generator).  A second request arriving in this state is therefore not
rejected with Locked: it acquires the lock again and starts a second
producer for the same key. -/
theorem claim_C1_lock_gone_while_generation_pending :
    (read_stream ⟨none, false, none⟩ (some "abc".data)).1
        = .response "abc".data
  ∧ ((read_stream ⟨none, false, none⟩ (some "abc".data)).2).lock = false
  ∧ (read_stream (read_stream ⟨none, false, none⟩ (some "abc".data)).2
        (some "abc".data)).1 = .response "abc".data := by
  refine ⟨?_, rfl, ?_⟩ <;> decide

/-! ## Claim C2 — temp artifact lifecycle in `generate_and_cache` -/

/-- Claim C2: "if the frame sequence completes without error, the temp
artifact is renamed to the final cache path; on any exception or early
termination of the sequence, the temp artifact is deleted and no file is
created at the final path, so a file at the final path is only ever a
complete, fully written entry."  `fs` is the state at the start of the
generation (the final path is absent, this being the cache-miss path);
the trace clause shows every observable intermediate state has either no
final file or the complete one. -/
theorem claim_C2_rename_on_success_delete_on_failure
    (fs : AppFS) (frames : List Bytes) (intr : Interrupt)
    (hfin : fs.final = none) :
    gen_and_cache_result fs frames none
        = ⟨some (bytesConcat frames), fs.lock, none⟩
  ∧ (∀ k, gen_and_cache_result fs frames (some k) = ⟨none, fs.lock, none⟩)
  ∧ (∀ s ∈ gen_and_cache_trace fs frames intr,
        s.final = none ∨ s.final = some (bytesConcat frames)) := by
  refine ⟨rfl, fun k => by simp [gen_and_cache_result, hfin], ?_⟩
  intro s hs
  simp only [gen_and_cache_trace] at hs
  rcases List.mem_cons.mp hs with h | hs2
  · left; rw [h]; exact hfin
  · rcases List.mem_append.mp hs2 with h | h
    · obtain ⟨i, _, hsi⟩ := List.mem_map.mp h
      left; rw [← hsi]; exact hfin
    · have hres : s = gen_and_cache_result fs frames intr := by simpa using h
      rw [hres]
      cases intr with
      | none => right; rfl
      | some k => left; exact hfin

/-- Witness for C2 at a concrete generation: two frames, completing
successfully and interrupted after the first frame. -/
theorem claim_C2_rename_on_success_delete_on_failure_witness :
    gen_and_cache_result ⟨none, false, none⟩ [[1], [2, 3]] none
        = ⟨some [1, 2, 3], false, none⟩
  ∧ gen_and_cache_result ⟨none, false, none⟩ [[1], [2, 3]] (some 1)
        = ⟨none, false, none⟩ := by
  have h := claim_C2_rename_on_success_delete_on_failure
    ⟨none, false, none⟩ [[1], [2, 3]] none rfl
  exact ⟨h.1.trans (by decide), h.2.1 1⟩

/-! ## Claim C3 — backpressure policy of the producer -/

/-- Claim C3 as stated is false: "for every audio frame the producer enqueues
while the bounded queue is full, the producer does not block indefinitely: it
drops the single oldest queued item to make room for the new item and
continues."  Audio frames are enqueued with the blocking `audio_queue.put`
(`stream_and_queue_chunk`): on this full two-slot queue the put blocks
(`none`) and discards nothing, whereas the claimed drop-oldest behaviour
would discard the oldest frame and enqueue the new one. -/
theorem claim_C3_counterexample :
    put_blocking ⟨[.frame [1], .frame [2]], 2⟩ (.frame [3]) = none
  ∧ claimDropOldestPut ⟨[.frame [1], .frame [2]], 2⟩ (.frame [3])
      = ⟨[.frame [2], .frame [3]], 2⟩ := by
  decide

/-- Claim C3 amended: audio frames are enqueued with a blocking put — on a
full queue the producer blocks until the consumer frees a slot, dropping
nothing.  Only the terminal items (the `TTSEngineError` value and the `None`
end-of-stream sentinel) go through `_safe_put`, which on a full queue drops
the single oldest queued item to make room and enqueues the new item. -/
theorem claim_C3_amended (q : BQueue) (x : QItem)
    (hfull : q.items.length = q.cap) (hcap : 1 ≤ q.cap) :
    safe_put q x = some ⟨q.items.tail ++ [x], q.cap⟩
  ∧ put_blocking q x = none := by
  have hnlt : ¬ (q.items.length < q.cap) := by omega
  refine ⟨?_, by unfold put_blocking; rw [if_neg hnlt]⟩
  cases hq : q.items with
  | nil =>
    rw [hq] at hfull
    simp only [List.length_nil] at hfull
    omega
  | cons a as =>
    have hlen : as.length < q.cap := by
      rw [hq] at hfull
      simp only [List.length_cons] at hfull
      omega
    have h1 : put_nowait q x = none := by
      unfold put_nowait
      rw [if_neg hnlt]
    have h2 : get_nowait q = some (a, ⟨as, q.cap⟩) := by
      unfold get_nowait
      rw [hq]
    have h3 : put_nowait ⟨as, q.cap⟩ x = some ⟨as ++ [x], q.cap⟩ := by
      unfold put_nowait
      rw [if_pos hlen]
    unfold safe_put
    simp only [h1, h2, h3, hq, List.tail_cons]

/-- Witness for the amended C3 on a concrete full one-slot queue. -/
theorem claim_C3_amended_witness :
    safe_put ⟨[.eos], 1⟩ (.frame [7]) = some ⟨[.frame [7]], 1⟩
  ∧ put_blocking ⟨[.eos], 1⟩ (.frame [7]) = none := by
  have h := claim_C3_amended ⟨[.eos], 1⟩ (.frame [7]) rfl (by decide)
  exact ⟨h.1.trans (by decide), h.2⟩

/-! ## Claims C4 and C5 — chunking

Evaluation lemmas for `forceSplitFuel`, phrased so that concrete runs can be
unfolded step by step without deep kernel evaluation. -/

/-- One iteration of the force-split loop while `start < len p`. -/
theorem forceSplitFuel_pos (L : Nat) (p : Str) (fuel start : Nat)
    (hf : fuel ≠ 0) (h : start < p.length) :
    forceSplitFuel L p fuel start
      = ((p.drop start).take (forcedEnd L p start - start))
          :: forceSplitFuel L p (fuel - 1) (forcedEnd L p start + 1) := by
  cases fuel with
  | zero => exact absurd rfl hf
  | succ n => simp [forceSplitFuel, h]

/-- The force-split loop exits as soon as `start` passes the end. -/
theorem forceSplitFuel_stop (L : Nat) (p : Str) (fuel start : Nat)
    (h : ¬ start < p.length) : forceSplitFuel L p fuel start = [] := by
  cases fuel <;> simp [forceSplitFuel, h]

/-- The chosen cut never reaches past `start + L`. -/
theorem forcedEnd_le (L : Nat) (p : Str) (start : Nat) :
    forcedEnd L p start ≤ start + L := by
  unfold forcedEnd pyRfindSpace
  cases h : rfindChar ((p.drop start).take (start + L - start)) ' ' with
  | none => simp [h]
  | some j =>
    have hj : j < ((p.drop start).take (start + L - start)).length :=
      rfindCharAux_lt _ _ _ h
    rw [List.length_take] at hj
    simp only [h, Option.map_some']
    split <;> omega

/-- Every piece produced by the force-split loop has length at most `L`. -/
theorem forceSplitFuel_len_le (L : Nat) (p : Str) (fuel : Nat) :
    ∀ start c, c ∈ forceSplitFuel L p fuel start → c.length ≤ L := by
  induction fuel with
  | zero => intro start c hc; simp [forceSplitFuel] at hc
  | succ n ih =>
    intro start c hc
    simp only [forceSplitFuel] at hc
    split at hc
    · rcases List.mem_cons.mp hc with h | h
      · subst h
        have h1 := forcedEnd_le L p start
        rw [List.length_take]
        omega
      · exact ih _ c h
    · simp at hc

/-- Every chunk yielded by the accumulation loop has length at most `L`,
provided the accumulated chunk it starts from does. -/
theorem chunkGo_len_le (L : Nat) (ps : List Str) :
    ∀ cc, cc.length ≤ L → ∀ c ∈ chunkGo L ps cc, c.length ≤ L := by
  induction ps with
  | nil =>
    intro cc hcc c hc
    simp only [chunkGo] at hc
    split at hc
    · simp at hc
    · simp only [List.mem_singleton] at hc
      subst hc
      exact hcc
  | cons p ps ih =>
    intro cc hcc c hc
    simp only [chunkGo] at hc
    by_cases hL : L ≤ p.length
    · rw [if_pos hL] at hc
      rcases List.mem_append.mp hc with h | h
      · rcases List.mem_append.mp h with h1 | h1
        · split at h1
          · simp at h1
          · simp only [List.mem_singleton] at h1
            subst h1
            exact hcc
        · exact forceSplitFuel_len_le L p p.length 0 c h1
      · exact ih [] (by simp) c h
    · rw [if_neg hL] at hc
      by_cases hfit : cc.length + p.length + 1 < L
      · rw [if_pos hfit] at hc
        refine ih (cc ++ p ++ ['\n']) ?_ c hc
        simp only [List.length_append, List.length_cons, List.length_nil]
        omega
      · rw [if_neg hfit] at hc
        rcases List.mem_cons.mp hc with h | h
        · subst h
          exact hcc
        · refine ih (p ++ ['\n']) ?_ c h
          simp only [List.length_append, List.length_cons, List.length_nil]
          omega

/-- Claim C5 as stated is false in its "no yielded chunk is empty" part: on a
single paragraph of exactly `TEXT_CHUNK_SIZE - 1` characters, the flush
branch runs with the accumulator still empty (the paragraph is below the
force-split threshold but `0 + 2499 + 1 < 2500` fails), so the empty string
is yielded as a chunk. -/
theorem claim_C5_counterexample :
    [] ∈ chunk_text TEXT_CHUNK_SIZE (List.replicate 2499 'a') := by
  have hR : ∀ x ∈ List.replicate 2499 'a', x ≠ '\n' := by
    intro x hx
    rw [List.eq_of_mem_replicate hx]
    decide
  have hne : (List.replicate 2499 'a' : Str) ≠ [] := by
    intro h
    have hl := congrArg List.length h
    rw [List.length_replicate, List.length_nil] at hl
    exact absurd hl (by decide)
  unfold chunk_text
  rw [if_neg hne, splitOn_eq_single _ _ hR]
  rw [chunkGo]
  rw [if_neg (by rw [List.length_replicate]; decide)]
  rw [if_neg (by simp only [List.length_nil, List.length_replicate]; decide)]
  exact List.mem_cons_self _ _

/-- The full run of `_chunk_text` on a single space-free paragraph of
`TEXT_CHUNK_SIZE + 1` identical characters: one forced cut at the limit, and
the loop then restarts at `start = end + 1`, past the end. -/
theorem chunk_text_replicate_2501 :
    chunk_text TEXT_CHUNK_SIZE (List.replicate 2501 'a')
      = [List.replicate 2500 'a'] := by
  have hR : ∀ x ∈ List.replicate 2501 'a', x ≠ '\n' := by
    intro x hx
    rw [List.eq_of_mem_replicate hx]
    decide
  have hne : (List.replicate 2501 'a' : Str) ≠ [] := by
    intro h
    have hl := congrArg List.length h
    rw [List.length_replicate, List.length_nil] at hl
    exact absurd hl (by decide)
  have hlen : (List.replicate 2501 'a' : Str).length = 2501 :=
    List.length_replicate 2501 'a'
  have hfind : rfindChar
      (((List.replicate 2501 'a').drop 0).take (0 + TEXT_CHUNK_SIZE - 0)) ' '
        = none := by
    apply rfindCharAux_eq_none
    intro x hx
    have hx1 : x ∈ (List.replicate 2501 'a' : Str).drop 0 := List.mem_of_mem_take hx
    have hx2 : x ∈ (List.replicate 2501 'a' : Str) := List.mem_of_mem_drop hx1
    rw [List.eq_of_mem_replicate hx2]
    decide
  have he : forcedEnd TEXT_CHUNK_SIZE (List.replicate 2501 'a') 0 = 2500 := by
    unfold forcedEnd pyRfindSpace
    rw [hfind]
    rfl
  have hchunk : ((List.replicate 2501 'a' : Str).drop 0).take (2500 - 0)
      = List.replicate 2500 'a' := by
    rw [List.drop_zero, show (2500 : Nat) - 0 = 2500 from rfl,
      show (2501 : Nat) = 2500 + 1 from rfl, List.replicate_add]
    exact List.take_left' (List.length_replicate 2500 'a')
  unfold chunk_text
  rw [if_neg hne, splitOn_eq_single _ _ hR]
  rw [chunkGo]
  rw [if_pos (by rw [hlen]; decide), if_pos rfl]
  unfold forceSplit
  rw [hlen]
  rw [forceSplitFuel_pos _ _ _ _ (by decide) (by rw [hlen]; decide)]
  rw [he, hchunk]
  rw [forceSplitFuel_stop _ _ _ _ (by rw [hlen]; decide)]
  rw [chunkGo]
  rw [if_pos (show pyStrip [] = [] from rfl)]
  rw [List.nil_append, List.append_nil]

/-- Claim C4: "concatenating in order all chunks yielded by the chunking
algorithm equals the original text up to whitespace normalization differences
only (no non-whitespace character is lost or reordered)."

The code violates this: on a space-free paragraph of 2501 identical
characters the force-split loop cuts hard at `end = start + TEXT_CHUNK_SIZE`
and then sets `start = end + 1` — the `+1` is meant to skip a space
(per the source comment) but here skips a real character, so the character at
index 2500 is silently dropped and the concatenation of the chunks is missing
one non-whitespace character. -/
theorem claim_C4_hard_cut_drops_char :
    nonWsChars (chunkConcat (chunk_text TEXT_CHUNK_SIZE (List.replicate 2501 'a')))
      ≠ nonWsChars (List.replicate 2501 'a') := by
  rw [chunk_text_replicate_2501]
  have h1 : nonWsChars (chunkConcat [List.replicate 2500 'a'])
      = List.replicate 2500 'a' := by
    show nonWsChars (List.replicate 2500 'a' ++ []) = _
    rw [List.append_nil]
    apply List.filter_eq_self.mpr
    intro x hx
    rw [List.eq_of_mem_replicate hx]
    decide
  have h2 : nonWsChars (List.replicate 2501 'a') = List.replicate 2501 'a' := by
    apply List.filter_eq_self.mpr
    intro x hx
    rw [List.eq_of_mem_replicate hx]
    decide
  rw [h1, h2]
  intro h
  have hl := congrArg List.length h
  simp only [List.length_replicate] at hl
  omega

/-- Claim C5 amended: every chunk yielded by the chunking algorithm has
length at most the configured chunk limit; however, a yielded chunk can be
empty (see the counterexample), so the "no yielded chunk is empty" part is
dropped. -/
theorem claim_C5_amended_chunk_le_limit (L : Nat) (text c : Str)
    (hc : c ∈ chunk_text L text) : c.length ≤ L := by
  unfold chunk_text at hc
  split at hc
  · simp at hc
  · exact chunkGo_len_le L _ [] (by simp) c hc

/-- Witness for the amended C5 at the configured limit on a short text. -/
theorem claim_C5_amended_chunk_le_limit_witness :
    "hi\n".data ∈ chunk_text TEXT_CHUNK_SIZE "hi".data
  ∧ ("hi\n".data).length ≤ TEXT_CHUNK_SIZE :=
  ⟨by decide,
   claim_C5_amended_chunk_le_limit TEXT_CHUNK_SIZE "hi".data "hi\n".data
     (by decide)⟩

/-! ## Claim C6 — the size pass -/

/-- Claim C6 as stated is false in its stopping rule: the loop condition in
the source is `if total_size < CACHE_CLEANUP_TARGET_BYTES: break`, a strict
comparison, so when a deletion lands the running total exactly on
`TARGET_SIZE` the loop deletes one more file instead of stopping.  With
`MAX = 10`, `TARGET = 5` and files of sizes 5, 3, 2 (mtimes 1, 2, 3), the
code deletes the first two files (total 10 → 5 → 2) while the claimed
"stop as soon as ≤ TARGET" rule deletes only the first (total 10 → 5). -/
theorem claim_C6_counterexample :
    cleanup_by_size 10 5 [⟨0, 5, 1, .ok⟩, ⟨1, 3, 2, .ok⟩, ⟨2, 2, 3, .ok⟩]
      ≠ cleanup_by_size_claim 10 5 [⟨0, 5, 1, .ok⟩, ⟨1, 3, 2, .ok⟩, ⟨2, 2, 3, .ok⟩] := by
  decide

theorem mem_insertByMtime (f g : SFile) (l : List SFile) :
    g ∈ insertByMtime f l ↔ g = f ∨ g ∈ l := by
  induction l with
  | nil => simp [insertByMtime]
  | cons h t ih =>
    simp only [insertByMtime]
    split
    · simp [List.mem_cons]
    · simp only [List.mem_cons, ih]
      tauto

theorem insertByMtime_pairwise (f : SFile) (l : List SFile)
    (hl : l.Pairwise fun a b => a.mtime ≤ b.mtime) :
    (insertByMtime f l).Pairwise fun a b => a.mtime ≤ b.mtime := by
  induction l with
  | nil => simp [insertByMtime]
  | cons h t ih =>
    rcases List.pairwise_cons.mp hl with ⟨hh, ht⟩
    simp only [insertByMtime]
    split
    case isTrue hle =>
      refine List.pairwise_cons.mpr ⟨?_, hl⟩
      intro b hb
      rcases List.mem_cons.mp hb with rfl | hb
      · exact hle
      · exact le_trans hle (hh b hb)
    case isFalse hgt =>
      refine List.pairwise_cons.mpr ⟨?_, ih ht⟩
      intro b hb
      rcases (mem_insertByMtime f b t).mp hb with rfl | hb
      · omega
      · exact hh b hb

/-- The embedded `files_to_scan.sort(key=...)` really sorts by ascending
mtime. -/
theorem sortByMtime_pairwise (l : List SFile) :
    (sortByMtime l).Pairwise fun a b => a.mtime ≤ b.mtime := by
  induction l with
  | nil => simp [sortByMtime]
  | cons f t ih => exact insertByMtime_pairwise f (sortByMtime t) ih

theorem decSum_nil : decSum [] = 0 := rfl

theorem decSum_cons_ok (f : SFile) (l : List SFile) (h : f.unlink = .ok) :
    decSum (f :: l) = f.size + decSum l := by
  unfold decSum
  simp [List.filter_cons, h]

theorem decSum_cons_missing (f : SFile) (l : List SFile)
    (h : f.unlink = .missing) :
    decSum (f :: l) = f.size + decSum l := by
  unfold decSum
  simp [List.filter_cons, h]

theorem decSum_cons_oserr (f : SFile) (l : List SFile) (h : f.unlink = .oserr) :
    decSum (f :: l) = decSum l := by
  unfold decSum
  simp [List.filter_cons, h]

/-- Characterisation of the deletion loop: it processes exactly a prefix of
the (sorted) file list — recording the successfully unlinked files and
decrementing the running total also for concurrently-vanished ones — and the
prefix ends at the first point where the running total drops strictly below
the target (or at the end of the list). -/
theorem sizeLoop_spec (target : Nat) (fs : List SFile) :
    ∀ t, ∃ n, n ≤ fs.length
      ∧ sizeLoop target fs t
          = ((fs.take n).filter (fun f => decide (f.unlink = UnlinkRes.ok)),
             t - decSum (fs.take n))
      ∧ (n = fs.length ∨ t - decSum (fs.take n) < target)
      ∧ (∀ m, m < n → target ≤ t - decSum (fs.take m)) := by
  induction fs with
  | nil =>
    intro t
    refine ⟨0, Nat.le_refl 0, ?_, Or.inl rfl,
      fun m hm => absurd hm (Nat.not_lt_zero m)⟩
    simp [sizeLoop, decSum_nil]
  | cons f fs ih =>
    intro t
    by_cases hlt : t < target
    · refine ⟨0, Nat.zero_le _, ?_, Or.inr ?_,
        fun m hm => absurd hm (Nat.not_lt_zero m)⟩
      · rw [sizeLoop, if_pos hlt]
        simp [decSum_nil]
      · simpa [decSum_nil] using hlt
    · have htarget : target ≤ t := by omega
      cases hu : f.unlink with
      | ok =>
        obtain ⟨n, hn, heq, hstop, hmin⟩ := ih (t - f.size)
        have hstep : sizeLoop target (f :: fs) t
            = (f :: (sizeLoop target fs (t - f.size)).1,
               (sizeLoop target fs (t - f.size)).2) := by
          rw [sizeLoop, if_neg hlt, hu]
        refine ⟨n + 1, by simp only [List.length_cons]; omega, ?_, ?_, ?_⟩
        · rw [hstep, heq, List.take_succ_cons, decSum_cons_ok f _ hu,
            ← Nat.sub_sub]
          simp [List.filter_cons, hu]
        · rcases hstop with h | h
          · left; rw [List.length_cons, h]
          · right
            rw [List.take_succ_cons, decSum_cons_ok f _ hu, ← Nat.sub_sub]
            exact h
        · intro m hm
          cases m with
          | zero => simpa [decSum_nil] using htarget
          | succ m =>
            rw [List.take_succ_cons, decSum_cons_ok f _ hu, ← Nat.sub_sub]
            exact hmin m (by omega)
      | missing =>
        obtain ⟨n, hn, heq, hstop, hmin⟩ := ih (t - f.size)
        have hstep : sizeLoop target (f :: fs) t
            = sizeLoop target fs (t - f.size) := by
          rw [sizeLoop, if_neg hlt, hu]
        refine ⟨n + 1, by simp only [List.length_cons]; omega, ?_, ?_, ?_⟩
        · rw [hstep, heq, List.take_succ_cons, decSum_cons_missing f _ hu,
            ← Nat.sub_sub]
          simp [List.filter_cons, hu]
        · rcases hstop with h | h
          · left; rw [List.length_cons, h]
          · right
            rw [List.take_succ_cons, decSum_cons_missing f _ hu, ← Nat.sub_sub]
            exact h
        · intro m hm
          cases m with
          | zero => simpa [decSum_nil] using htarget
          | succ m =>
            rw [List.take_succ_cons, decSum_cons_missing f _ hu, ← Nat.sub_sub]
            exact hmin m (by omega)
      | oserr =>
        obtain ⟨n, hn, heq, hstop, hmin⟩ := ih t
        have hstep : sizeLoop target (f :: fs) t = sizeLoop target fs t := by
          rw [sizeLoop, if_neg hlt, hu]
        refine ⟨n + 1, by simp only [List.length_cons]; omega, ?_, ?_, ?_⟩
        · rw [hstep, heq, List.take_succ_cons, decSum_cons_oserr f _ hu]
          simp [List.filter_cons, hu]
        · rcases hstop with h | h
          · left; rw [List.length_cons, h]
          · right
            rw [List.take_succ_cons, decSum_cons_oserr f _ hu]
            exact h
        · intro m hm
          cases m with
          | zero => simpa [decSum_nil] using htarget
          | succ m =>
            rw [List.take_succ_cons, decSum_cons_oserr f _ hu]
            exact hmin m (by omega)

/-- Claim C6 amended: the size pass does nothing when total bytes are below
`MAX_SIZE`; when total ≥ `MAX_SIZE` it deletes files in ascending
last-modified order and stops as soon as the running total is *strictly
below* `TARGET_SIZE`, decrementing the running total even for entries found
already missing (and skipping, without decrement, entries whose deletion
fails with another `OSError`). -/
theorem claim_C6_amended (maxBytes targetBytes : Nat) (files : List SFile) :
    (totalSize files < maxBytes →
        cleanup_by_size maxBytes targetBytes files = ([], totalSize files))
  ∧ (maxBytes ≤ totalSize files →
      (sortByMtime files).Pairwise (fun a b => a.mtime ≤ b.mtime)
    ∧ ∃ n, n ≤ (sortByMtime files).length
        ∧ cleanup_by_size maxBytes targetBytes files
            = (((sortByMtime files).take n).filter
                 (fun f => decide (f.unlink = UnlinkRes.ok)),
               totalSize files - decSum ((sortByMtime files).take n))
        ∧ (n = (sortByMtime files).length
            ∨ totalSize files - decSum ((sortByMtime files).take n) < targetBytes)
        ∧ (∀ m, m < n →
            targetBytes ≤ totalSize files - decSum ((sortByMtime files).take m))) := by
  constructor
  · intro h
    unfold cleanup_by_size
    rw [if_pos h]
  · intro h
    refine ⟨sortByMtime_pairwise files, ?_⟩
    have hs := sizeLoop_spec targetBytes (sortByMtime files) (totalSize files)
    unfold cleanup_by_size
    rw [if_neg (by omega)]
    exact hs

/-- Witness for the amended C6: a below-limit cache is left untouched. -/
theorem claim_C6_amended_witness :
    cleanup_by_size 3 1 [⟨0, 1, 0, .ok⟩] = ([], 1) :=
  (claim_C6_amended 3 1 [⟨0, 1, 0, .ok⟩]).1 (by decide)

/-! ## Claim C7 — the age pass -/

/-- The deletion condition of `_cleanup_by_age`, read back as a proposition. -/
theorem ageCond_iff (now maxAgeDays : Int) (e : AEntry) :
    (isOldCacheFile now maxAgeDays e || isStaleTempFile now e) = true ↔
      (e.mtime < now - maxAgeDays * SECONDS_IN_A_DAY
        ∨ ((pathSuffix e.name = ".tmp".data ∨ pathSuffix e.name = ".lock".data)
            ∧ e.mtime < now - STALE_TEMP_FILE_SECONDS)) := by
  unfold isOldCacheFile isStaleTempFile
  simp [Bool.or_eq_true, Bool.and_eq_true, decide_eq_true_eq]

/-- Claim C7: the age pass deletes an artifact exactly when it is older than
`MAX_AGE`, or it is a temp/lock artifact (suffix `.tmp` or `.lock`) older
than the one-hour staleness threshold; artifacts younger than both bounds are
left untouched, and a concurrent deletion — the entry vanishing between
`iterdir` and `stat`, or `unlink` hitting `FileNotFoundError` — is treated as
success (already gone), never as an error. -/
theorem claim_C7_age_pass (now maxAgeDays : Int) (e : AEntry) :
    (e.stat = .ok → e.unlink = .ok →
      (ageOutcome now maxAgeDays e = .deleted ↔
        (e.mtime < now - maxAgeDays * SECONDS_IN_A_DAY
          ∨ ((pathSuffix e.name = ".tmp".data ∨ pathSuffix e.name = ".lock".data)
              ∧ e.mtime < now - STALE_TEMP_FILE_SECONDS))))
  ∧ (e.stat = .missing → ageOutcome now maxAgeDays e = .alreadyGone)
  ∧ (e.stat = .ok → e.unlink = .missing →
      ageOutcome now maxAgeDays e = .alreadyGone
        ∨ ageOutcome now maxAgeDays e = .kept) := by
  refine ⟨?_, ?_, ?_⟩
  · intro hstat hunlink
    by_cases hcond : (isOldCacheFile now maxAgeDays e || isStaleTempFile now e) = true
    · have hout : ageOutcome now maxAgeDays e = .deleted := by
        unfold ageOutcome
        simp only [hstat]
        rw [if_pos hcond]
        simp only [hunlink]
      rw [hout, ← ageCond_iff now maxAgeDays e]
      simp [hcond]
    · have hout : ageOutcome now maxAgeDays e = .kept := by
        unfold ageOutcome
        simp only [hstat]
        rw [if_neg hcond]
      rw [hout, ← ageCond_iff now maxAgeDays e]
      simp [hcond]
  · intro hstat
    unfold ageOutcome
    simp [hstat]
  · intro hstat hunlink
    unfold ageOutcome
    simp only [hstat, hunlink]
    split
    · left; rfl
    · right; rfl

/-- Witness for C7: with `now = 8 days + 10 s` and a 7-day max age, a cache
entry of mtime 0 is deleted. -/
theorem claim_C7_age_pass_witness :
    ageOutcome (8 * 86400 + 10) 7 ⟨"k.mp3".data, 0, .ok, .ok⟩ = .deleted :=
  ((claim_C7_age_pass (8 * 86400 + 10) 7 ⟨"k.mp3".data, 0, .ok, .ok⟩).1
    rfl rfl).mpr (Or.inl (by decide))

/-! ## Claim C8 — artifact naming -/

/-- Claim C8 as stated is false: the final cache entry for a key is
`<key>.mp3` (`get_path_from_key` formats `f"{key}.mp3"`), not `<key>.audio`. -/
theorem claim_C8_counterexample :
    (get_path_from_key "k".data).name ≠ "k.audio".data := by
  decide

theorem rfindChar_key_mp3 (key : Str) :
    rfindChar (key ++ ".mp3".data) '.' = some key.length := by
  unfold rfindChar
  have h4 : rfindCharAux '.' (".mp3".data) = some 0 := by decide
  simpa using rfindCharAux_append '.' key (".mp3".data) 0 h4

theorem pathSuffix_key_mp3 (key : Str) (hkey : key ≠ []) :
    pathSuffix (key ++ ".mp3".data) = ".mp3".data := by
  unfold pathSuffix
  rw [rfindChar_key_mp3]
  show (if 0 < key.length ∧ key.length < (key ++ ".mp3".data).length - 1
        then (key ++ ".mp3".data).drop key.length else []) = ".mp3".data
  rw [if_pos ?hcond]
  case hcond =>
    constructor
    · cases key with
      | nil => exact absurd rfl hkey
      | cons _ _ => simp
    · rw [List.length_append, show (".mp3".data).length = 4 from rfl]
      omega
  exact List.drop_left key (".mp3".data)

theorem pathStem_key_mp3 (key : Str) (hkey : key ≠ []) :
    pathStem (key ++ ".mp3".data) = key := by
  unfold pathStem
  rw [pathSuffix_key_mp3 key hkey, List.length_append,
    show (".mp3".data).length = 4 from rfl,
    show ∀ n : Nat, n + 4 - 4 = n from fun n => by omega]
  exact List.take_left key (".mp3".data)

/-- Claim C8 amended: for every non-empty key, the final cache entry path is
`<key>.mp3`, the lock artifact path is `<key>.lock`, and the temp artifact
path is `<key>.mp3.tmp`, all inside the cache directory.  (The spec's
`.audio` extension is `.mp3` in the code; `with_suffix` replaces the `.mp3`
suffix for the lock and appends `.mp3.tmp` to the stem for the temp file.) -/
theorem claim_C8_amended (key : Str) (hkey : key ≠ []) :
    get_path_from_key key = ⟨CACHE_DIR, key ++ ".mp3".data⟩
  ∧ lock_path_of key = ⟨CACHE_DIR, key ++ ".lock".data⟩
  ∧ temp_path_of key = ⟨CACHE_DIR, key ++ ".mp3.tmp".data⟩ := by
  refine ⟨rfl, ?_, ?_⟩
  · show (⟨CACHE_DIR, pathStem (key ++ ".mp3".data) ++ ".lock".data⟩ : PPath) = _
    rw [pathStem_key_mp3 key hkey]
  · show (⟨CACHE_DIR, pathStem (key ++ ".mp3".data) ++ ".mp3.tmp".data⟩ : PPath) = _
    rw [pathStem_key_mp3 key hkey]

/-- Witness for the amended C8 on a concrete key. -/
theorem claim_C8_amended_witness :
    get_path_from_key "a".data = ⟨CACHE_DIR, "a.mp3".data⟩
  ∧ lock_path_of "a".data = ⟨CACHE_DIR, "a.lock".data⟩
  ∧ temp_path_of "a".data = ⟨CACHE_DIR, "a.mp3.tmp".data⟩ := by
  have h := claim_C8_amended "a".data (by decide)
  exact ⟨h.1.trans (by decide), h.2.1.trans (by decide), h.2.2.trans (by decide)⟩

/-! ## Claim C9 — percent-string validation -/

/-- Claim C9 as stated is false: `re.match(r"^[+-]\d{1,3}%$", value)` accepts
`"+10%\n"` because Python's `$` also matches just before a trailing newline,
so `_validate_percent_string` returns this non-percent string unchanged
instead of raising `ValueError`. -/
theorem claim_C9_counterexample :
    validate_percent_string ("+10%\n".data) = .ok ("+10%\n".data)
  ∧ claimSignedPercent ("+10%\n".data) = false :=
  ⟨rfl, by decide⟩

/-- The regular-expression match accepts exactly the claimed sign-digits-`%`
shape, by itself or followed by one trailing newline. -/
theorem reMatchPercent_iff (s : Str) :
    reMatchPercent s = true ↔
      (claimSignedPercent s = true
        ∨ ∃ t, s = t ++ ['\n'] ∧ claimSignedPercent t = true) := by
  cases s with
  | nil =>
    constructor
    · intro h
      exact absurd h (by decide)
    · rintro (h | ⟨t, ht, _⟩)
      · exact absurd h (by decide)
      · have hl := congrArg List.length ht
        simp only [List.length_nil, List.length_append, List.length_cons] at hl
        omega
  | cons c rest =>
    constructor
    · intro h
      simp only [reMatchPercent, Bool.and_eq_true, Bool.or_eq_true,
        decide_eq_true_eq] at h
      obtain ⟨hsign, ⟨hd1, hd2⟩, hmatch⟩ := h
      cases htl : rest.drop (rest.takeWhile isPyDigit).length with
      | nil =>
        rw [htl] at hmatch
        exact absurd hmatch (by decide)
      | cons x r =>
        rw [htl] at hmatch
        simp only [Bool.and_eq_true, Bool.or_eq_true, decide_eq_true_eq] at hmatch
        obtain ⟨hx, hr⟩ := hmatch
        subst hx
        have hds : ∀ y ∈ rest.takeWhile isPyDigit, isPyDigit y = true :=
          fun y hy => List.mem_takeWhile_imp hy
        have hdw : rest.dropWhile isPyDigit = '%' :: r := by
          rw [← drop_takeWhile_length]
          exact htl
        have hrest : rest = rest.takeWhile isPyDigit ++ '%' :: r := by
          conv_lhs =>
            rw [← List.takeWhile_append_dropWhile (p := isPyDigit) (l := rest)]
          rw [hdw]
        rcases hr with hr | hr
        · refine Or.inl ?_
          simp only [claimSignedPercent, Bool.and_eq_true, Bool.or_eq_true,
            decide_eq_true_eq]
          exact ⟨hsign, ⟨hd1, hd2⟩, htl.trans (by rw [hr])⟩
        · refine Or.inr ⟨c :: (rest.takeWhile isPyDigit ++ ['%']), ?_, ?_⟩
          · rw [List.cons_append, List.append_assoc]
            conv_lhs => rw [hrest, hr]
            rfl
          · simp only [claimSignedPercent, Bool.and_eq_true, Bool.or_eq_true,
              decide_eq_true_eq]
            have htw : (rest.takeWhile isPyDigit ++ ['%']).takeWhile isPyDigit
                = rest.takeWhile isPyDigit :=
              takeWhile_block isPyDigit _ hds '%' (by decide) []
            refine ⟨hsign, ⟨?_, ?_⟩, ?_⟩
            · rw [htw]; exact hd1
            · rw [htw]; exact hd2
            · rw [htw]
              exact List.drop_left _ _
    · rintro (h | ⟨t, ht, hct⟩)
      · simp only [claimSignedPercent, Bool.and_eq_true, Bool.or_eq_true,
          decide_eq_true_eq] at h
        obtain ⟨hsign, ⟨hd1, hd2⟩, hdrop⟩ := h
        simp only [reMatchPercent, Bool.and_eq_true, Bool.or_eq_true,
          decide_eq_true_eq]
        refine ⟨hsign, ⟨hd1, hd2⟩, ?_⟩
        rw [hdrop]
        decide
      · cases t with
        | nil => exact absurd hct (by decide)
        | cons c' t' =>
          rw [List.cons_append] at ht
          injection ht with hc hrest2
          subst hc
          subst hrest2
          simp only [claimSignedPercent, Bool.and_eq_true, Bool.or_eq_true,
            decide_eq_true_eq] at hct
          obtain ⟨hsign, ⟨hd1, hd2⟩, hdrop⟩ := hct
          have hds' : ∀ y ∈ t'.takeWhile isPyDigit, isPyDigit y = true :=
            fun y hy => List.mem_takeWhile_imp hy
          have ht' : t' = t'.takeWhile isPyDigit ++ ['%'] := by
            conv_lhs =>
              rw [← List.takeWhile_append_dropWhile (p := isPyDigit) (l := t')]
            rw [← drop_takeWhile_length, hdrop]
          simp only [reMatchPercent, Bool.and_eq_true, Bool.or_eq_true,
            decide_eq_true_eq]
          have htw2 : (t' ++ ['\n']).takeWhile isPyDigit
              = t'.takeWhile isPyDigit := by
            conv_lhs => rw [ht', List.append_assoc]
            exact takeWhile_block isPyDigit _ hds' '%' (by decide) ['\n']
          have hdp2 : (t' ++ ['\n']).drop (t'.takeWhile isPyDigit).length
              = '%' :: ['\n'] := by
            generalize hgen : t'.takeWhile isPyDigit = tw at ht' ⊢
            rw [ht', List.append_assoc]
            exact List.drop_left tw _
          refine ⟨hsign, ⟨?_, ?_⟩, ?_⟩
          · rw [htw2]; exact hd1
          · rw [htw2]; exact hd2
          · rw [htw2, hdp2]
            decide

/-- Claim C9 amended: validation raises `ValueError` exactly when the string
is not a signed percentage — a sign, one to three decimal digits (any
Unicode decimal digit, as `\d` matches, so `"+٥%"` is accepted), `'%'` —
optionally followed by a single trailing newline (an artifact of Python's
`$` anchor); accepted strings are returned unchanged.  (In `stream`, an
empty per-call override is not validated at all: it falls back to the
constructor value.) -/
theorem claim_C9_amended (s : Str) :
    (validate_percent_string s = .ok s ↔
      (claimSignedPercent s = true
        ∨ ∃ t, s = t ++ ['\n'] ∧ claimSignedPercent t = true))
  ∧ (validate_percent_string s = .ok s
      ∨ validate_percent_string s = .error .valueError)
  ∧ selectOverride s none = .ok s
  ∧ (∀ engineVal, selectOverride engineVal (some []) = .ok engineVal) := by
  refine ⟨?_, ?_, rfl, fun engineVal => rfl⟩ <;> unfold validate_percent_string
  · by_cases h : reMatchPercent s = true
    · rw [if_pos h]
      exact ⟨fun _ => (reMatchPercent_iff s).mp h, fun _ => rfl⟩
    · rw [if_neg h]
      exact ⟨fun hok => Except.noConfusion hok,
        fun hr => absurd ((reMatchPercent_iff s).mpr hr) h⟩
  · by_cases h : reMatchPercent s = true
    · rw [if_pos h]; exact Or.inl rfl
    · rw [if_neg h]; exact Or.inr rfl

/-- Witness for the amended C9: a well-formed percentage is accepted and
returned unchanged, also with a non-ASCII decimal digit (Arabic-Indic five),
which `\d` matches. -/
theorem claim_C9_amended_witness :
    validate_percent_string ("+5%".data) = .ok ("+5%".data)
  ∧ validate_percent_string ("+٥%".data) = .ok ("+٥%".data) :=
  ⟨(claim_C9_amended ("+5%".data)).1.mpr (Or.inl (by decide)),
   (claim_C9_amended ("+٥%".data)).1.mpr (Or.inl (by decide))⟩

/-! ## Claim C10 — blank text short-circuits `stream` -/

/-- Claim C10: for every input text that is empty or consists only of
whitespace, `TTSEngine.stream` yields an empty sequence, raises no error, and
starts no producer thread — the guard `if not text or not text.strip():
return` fires before the rate/volume overrides are validated, before
`audio_queue` is created and before the producer thread or the synthesis
service is touched (all of which the `emptyReturn` outcome encodes). -/
theorem claim_C10_blank_text_no_producer (selfRate selfVolume text : Str)
    (rate volume : Option Str) (h : pyStrip text = []) :
    streamSetup selfRate selfVolume text rate volume = .emptyReturn := by
  unfold streamSetup
  rw [if_pos (Or.inr h)]

/-- Witness for C10 on a whitespace-only text. -/
theorem claim_C10_blank_text_no_producer_witness :
    pyStrip " \n\t".data = []
  ∧ streamSetup "+0%".data "+0%".data " \n\t".data none none = .emptyReturn :=
  ⟨by decide,
   claim_C10_blank_text_no_producer "+0%".data "+0%".data " \n\t".data
     none none (by decide)⟩

end RadioTruyen
